import Mathlib

/-
Verification of the scmdata repository's filtering, offsets and groupby helpers.

The definitions below are shallow embeddings of the functions in
`src/scmdata/filters.py`, `src/scmdata/offsets.py` and `src/scmdata/groupby.py`.
Python strings are modelled as `List Char` (wrapped in `String` at the API
surface), Python exceptions as an explicit `Except PyErr` result, numbers as
`Int`/`ℚ`, and the fragment of Python's `re` module that the pseudo-regexp
construction in `pattern_match` can produce is modelled by a small token-based
matcher (`parseRe`/`tmatch`).
-/

namespace Scmdata

/-- Python-style exceptions raised by the embedded functions. -/
inductive PyErr where
  | valueError (msg : String)
  | typeError (msg : String)
  | indexError
  deriving DecidableEq, Repr

instance {ε α : Type} [DecidableEq ε] [DecidableEq α] : DecidableEq (Except ε α) := fun a b =>
  match a, b with
  | .ok x, .ok y =>
      if h : x = y then .isTrue (by rw [h]) else .isFalse (by simp [h])
  | .error x, .error y =>
      if h : x = y then .isTrue (by rw [h]) else .isFalse (by simp [h])
  | .ok _, .error _ => .isFalse (by simp)
  | .error _, .ok _ => .isFalse (by simp)

/-- Split a character list at every occurrence of `sep`
(Python `s.split(sep)` for a one-character separator). -/
def splitOnCharL (sep : Char) : List Char → List (List Char)
  | [] => [[]]
  | c :: cs =>
    if c = sep then [] :: splitOnCharL sep cs
    else
      match splitOnCharL sep cs with
      | [] => [[c]]
      | g :: gs => (c :: g) :: gs

/-- Apply `f` to every character and concatenate the chunks.  Helper used to
state the normal form of single-character `str.replace` chains. -/
def mapChunks (f : Char → List Char) : List Char → List Char
  | [] => []
  | c :: cs => f c ++ mapChunks f cs

/-- Python `s.replace("", repl)`: the replacement is inserted before every
character and once at the end. -/
def pyInterleave (repl : List Char) : List Char → List Char
  | [] => repl
  | c :: cs => repl ++ c :: pyInterleave repl cs

/-- Fuelled worker for `pyReplaceL`; each step consumes at least one input
character, so fuel `s.length` is always sufficient. -/
def pyReplaceGo (pat repl : List Char) : Nat → List Char → List Char
  | _, [] => []
  | 0, s => s
  | Nat.succ n, c :: cs =>
      if pat.isPrefixOf (c :: cs) then
        repl ++ pyReplaceGo pat repl n (List.drop (pat.length - 1) cs)
      else
        c :: pyReplaceGo pat repl n cs

/-- Python `str.replace(pat, repl)`: replace all non-overlapping occurrences,
scanning left to right. -/
def pyReplaceL (pat repl s : List Char) : List Char :=
  if pat.isEmpty then pyInterleave repl s else pyReplaceGo pat repl s.length s

/-- Python `s.replace(old, new)` on `String`s. -/
def pyReplace (s old new : String) : String :=
  String.mk (pyReplaceL old.data new.data s.data)

/-- Fuelled worker for `countOccL`. -/
def countOccGo (pat : List Char) : Nat → List Char → Nat
  | _, [] => 0
  | 0, _ => 0
  | Nat.succ n, c :: cs =>
      if pat.isPrefixOf (c :: cs) then
        1 + countOccGo pat n (List.drop (pat.length - 1) cs)
      else
        countOccGo pat n cs

/-- Number of non-overlapping occurrences of `pat` in `s`, scanning left to
right: models `len(re.findall(re.escape(pat), s))`. -/
def countOccL (pat s : List Char) : Nat :=
  if pat.isEmpty then s.length + 1 else countOccGo pat s.length s

/-- Accumulating worker for `digitsVal`. -/
def digitsValGo (acc : Nat) : List Char → Option Nat
  | [] => some acc
  | c :: cs => if c.isDigit then digitsValGo (acc * 10 + (c.toNat - 48)) cs else none

/-- Value of a non-empty all-digit character list. -/
def digitsVal : List Char → Option Nat
  | [] => none
  | l => digitsValGo 0 l

/-- Python `int(s)` for plain decimal literals with an optional sign
(whitespace stripping is not modelled); `none` models the `ValueError`. -/
def parseIntPy (s : String) : Option Int :=
  match s.data with
  | '-' :: rest => (digitsVal rest).map (fun n => -(n : Int))
  | '+' :: rest => (digitsVal rest).map (fun n => (n : Int))
  | l => (digitsVal l).map (fun n => (n : Int))

/-! ### A small regular-expression engine

`pattern_match` builds a pattern string and hands it to Python's `re` module.
We model the fragment of `re` that these patterns can fall into: escaped
literals `\c`, the wildcard `.`, the postfix quantifiers `*` and `?`, the end
anchor `$`, and plain literal characters.  Characters that Python's `re`
interprets beyond this fragment (`\`, `[`, `]`, `{`, `}` and stacked
quantifiers) are outside the model; the theorems about arbitrary
specifications carry a hypothesis excluding them. -/

/-- A single-character regex atom. -/
inductive Atom where
  | lit (c : Char)
  | any
  deriving DecidableEq, Repr

/-- A regex token: an atom used once, starred, optional, or the end anchor. -/
inductive Tok where
  | once (a : Atom)
  | star (a : Atom)
  | opt (a : Atom)
  | endAnchor
  deriving DecidableEq, Repr

/-- Does atom `a` match character `c`? -/
def amatch : Atom → Char → Bool
  | .lit d, c => c = d
  | .any, _ => true

/-- The atom denoted by an unescaped pattern character. -/
def mkAtom (a : Char) : Atom := if a = '.' then Atom.any else Atom.lit a

/-- Parse a pattern string of the modelled fragment into tokens.  Escaped
characters are literals; `.` is the wildcard; a following `*` or `?` turns
the preceding atom into a starred/optional token; `$` is the end anchor. -/
def parseRe : List Char → List Tok
  | [] => []
  | [a] =>
    if a = '\\' then [] else if a = '$' then [.endAnchor] else [.once (mkAtom a)]
  | a :: b :: rest =>
    if a = '\\' then
      match rest with
      | [] => [.once (.lit b)]
      | d :: rest2 =>
        if d = '*' then .star (.lit b) :: parseRe rest2
        else if d = '?' then .opt (.lit b) :: parseRe rest2
        else .once (.lit b) :: parseRe (d :: rest2)
    else if a = '$' then .endAnchor :: parseRe (b :: rest)
    else if b = '*' then .star (mkAtom a) :: parseRe rest
    else if b = '?' then .opt (mkAtom a) :: parseRe rest
    else .once (mkAtom a) :: parseRe (b :: rest)

/-- Match against the empty remainder of the subject: only `.once` fails. -/
def tmatchNil : List Tok → Bool
  | [] => true
  | .endAnchor :: ts => tmatchNil ts
  | .once _ :: _ => false
  | .opt _ :: ts => tmatchNil ts
  | .star _ :: ts => tmatchNil ts

/-- Match a non-empty subject `c :: l` where `tmTail` matches token lists
against `l`. -/
def tmatchCons (c : Char) (tmTail : List Tok → Bool) : List Tok → Bool
  | [] => true
  | .endAnchor :: _ => false
  | .once a :: ts => amatch a c && tmTail ts
  | .opt a :: ts => tmatchCons c tmTail ts || (amatch a c && tmTail ts)
  | .star a :: ts => tmatchCons c tmTail ts || (amatch a c && tmTail (.star a :: ts))

/-- `re.match` semantics: anchored at the start of the subject, and the
subject may extend past the pattern unless an end anchor is present. -/
def tmatch : List Char → List Tok → Bool
  | [], ts => tmatchNil ts
  | c :: l, ts => tmatchCons c (tmatch l) ts

/-- Like `tmatchCons` but for full-extent matching: an exhausted pattern with
subject characters remaining is a failure. -/
def tfullCons (c : Char) (tmTail : List Tok → Bool) : List Tok → Bool
  | [] => false
  | .endAnchor :: _ => false
  | .once a :: ts => amatch a c && tmTail ts
  | .opt a :: ts => tfullCons c tmTail ts || (amatch a c && tmTail ts)
  | .star a :: ts => tfullCons c tmTail ts || (amatch a c && tmTail (.star a :: ts))

/-- Full-extent matching: the pattern must account for the whole subject. -/
def tfull : List Char → List Tok → Bool
  | [], ts => tmatchNil ts
  | c :: l, ts => tfullCons c (tfull l) ts

/-! ### Embedding of `filters.py`: `find_depth` and `pattern_match` -/

/-- `HIERARCHY_SEPARATOR` from `filters.py`. -/
def HIERARCHY_SEPARATOR : String := "|"

/-- The sequential character replacements building the pseudo-regexp in
`pattern_match` (`filters.py` lines 175-184), innermost replacement first:
`| . * + ( ) $ ^`. -/
def pseudoRegexChain (s : List Char) : List Char :=
  pyReplaceL ['^'] ['\\', '^']
    (pyReplaceL ['$'] ['\\', '$']
      (pyReplaceL [')'] ['\\', ')']
        (pyReplaceL ['('] ['\\', '(']
          (pyReplaceL ['+'] ['\\', '+']
            (pyReplaceL ['*'] ['.', '*']
              (pyReplaceL ['.'] ['\\', '.']
                (pyReplaceL ['|'] ['\\', '|'] s)))))))

/-- The full pattern string handed to `re.compile`: the replacement chain with
`"$"` appended (`filters.py` line 185). -/
def pseudoRegexStr (s : List Char) : List Char := pseudoRegexChain s ++ ['$']

/-- Strip trailing `'0'` characters. -/
def stripZeros (l : List Char) : List Char :=
  (l.reverse.dropWhile (fun c => c = '0')).reverse

/-- Decimal rendering of a Python float (`str(x)` for a float `x`), modelled
for values with a terminating decimal expansion.  This is only reached by
numeric specs flowing into the string-comparison branch, a path no verified
claim exercises. -/
def pyFloatStr (q : ℚ) : String :=
  let neg := decide (q.num < 0)
  let sign := if neg then "-" else ""
  let an : Int := if neg then -q.num else q.num
  let scaled : Int := an * (((10 : Nat) ^ (64 : Nat) : Nat) : Int)
  if scaled % (q.den : Int) = 0 then
    let digits := (toString (scaled / (q.den : Int))).data
    let padded := List.replicate (65 - digits.length) '0' ++ digits
    let ip := padded.take (padded.length - 64)
    let fp := stripZeros (padded.drop (padded.length - 64))
    sign ++ String.mk ip ++ "." ++ String.mk (if fp.isEmpty then ['0'] else fp)
  else
    sign ++ toString an ++ "/" ++ toString q.den

/-- A `level` filter value: an `int` or a `str` (`"N-"` / `"N+"`). -/
inductive LevelVal where
  | i (n : Int)
  | s (v : String)
  deriving DecidableEq, Repr

/-- A categorical metadata column: the distinct category labels plus one code
per row (`-1` is the distinguished "no category"/NaN code).  Columns are
modelled as string-categorical, the case the filtering engine is built for. -/
structure CatIndex where
  categories : List String
  codes : List Int
  deriving Repr

/-- `filters.py` `find_depth`: all category labels whose depth (number of
separator occurrences remaining after deleting every occurrence of the
star-stripped filter keyword) satisfies the `level` test. -/
def find_depth (meta_col : CatIndex) (s : String) (level : LevelVal)
    (separator : String) : Except PyErr (List String) := do
  let test : Nat → Bool ←
    match level with
    | .i n => .ok (fun x => n == (x : Int))
    | .s lv =>
      match lv.data.getLast? with
      | none => .error .indexError
      | some last =>
        if last = '-' then
          match parseIntPy (String.mk lv.data.dropLast) with
          | none => .error (.valueError ("invalid literal for int: " ++ lv))
          | some k => .ok (fun x => decide ((x : Int) ≤ k))
        else if last = '+' then
          match parseIntPy (String.mk lv.data.dropLast) with
          | none => .error (.valueError ("invalid literal for int: " ++ lv))
          | some k => .ok (fun x => decide (k ≤ (x : Int)))
        else .error (.valueError ("Unknown level type: " ++ lv))
  let regexp := pyReplace s "*" ""
  .ok (meta_col.categories.filter (fun val =>
    test (countOccL separator.data (pyReplace val regexp "").data)))

/-- A metadata filter value: a string, NaN, or another float. -/
inductive PVal where
  | s (v : String)
  | nan
  | num (q : ℚ)
  deriving DecidableEq, Repr

/-- Python `str(v)` for a filter value. -/
def pvalStr : PVal → String
  | .s v => v
  | .nan => "nan"
  | .num q => pyFloatStr q

/-- `comparison_value`: the empty string is converted to NaN. -/
def compValue (v : PVal) : PVal := if v = .s "" then .nan else v

/-- `np.isnan` on a non-string comparison value. -/
def isNanPVal : PVal → Bool
  | .nan => true
  | _ => false

/-- The category label of the row with code `k` (`none` for the NaN code). -/
def rowVal (col : CatIndex) (k : Int) : Option String :=
  if k < 0 then none else col.categories.get? k.toNat

/-- Pointwise disjunction of two row masks (`matches |= ...`). -/
def orMasks (a b : List Bool) : List Bool := List.zipWith (fun x y => x || y) a b

/-- One iteration of the loop over `values` in `pattern_match`
(`filters.py` lines 161-204), producing the mask contributed by one value.
`pd.api.types.is_string_dtype(meta_col.categories.dtype)` is `True` in this
model (string-categorical columns). -/
def pmOne (meta_col : CatIndex) (level : Option LevelVal) (regexp : Bool)
    (separator : String) (s : PVal) : Except PyErr (List Bool) := do
  let cv := compValue s
  let useString := match cv with
    | .s _ => true
    | _ => !(isNanPVal cv)
  if useString then
    if !regexp && cv = .s "*" && level = none then
      .ok (List.replicate meta_col.codes.length true)
    else
      let patStr := if regexp then (pvalStr cv).data else pseudoRegexStr (pvalStr s).data
      let pat := parseRe patStr
      let subset := meta_col.categories.filter (fun m => tmatch m.data pat)
      let subset ←
        match level with
        | none => .ok subset
        | some lv => do
          let depth ← find_depth meta_col (pvalStr cv) lv separator
          .ok (subset.filter (fun m => depth.contains m))
      .ok (meta_col.codes.map (fun k =>
        match rowVal meta_col k with
        | some cat => subset.contains cat
        | none => false))
  else
    match cv with
    | .nan => .ok (meta_col.codes.map (fun k => k == -1))
    | _ =>
      -- a numeric spec against the string-dtype column: `meta_col.astype(float)`
      -- raises; this branch is unreachable because `useString` is true for
      -- non-NaN values when the column dtype is string
      .error (.valueError "could not convert string to float")

/-- `filters.py` `pattern_match`: fold the per-value masks together with `|=`
starting from an all-`False` mask over the rows. -/
def pattern_match (meta_col : CatIndex) (values : List PVal) (level : Option LevelVal)
    (regexp : Bool) (separator : String) : Except PyErr (List Bool) :=
  values.foldlM
    (fun acc v => (pmOne meta_col level regexp separator v).map (fun m => orMasks acc m))
    (List.replicate meta_col.codes.length false)

/-- The label-selection step of `pattern_match` for one string value with
`regexp=False`: compile the pseudo-regexp (with `"$"` appended) and test the
label with `re.match` semantics (`filters.py` lines 175-188). -/
def globStepSelect (s label : String) : Bool :=
  tmatch label.data (parseRe (pseudoRegexStr s.data))

/-- The escape set named by the spec: `. + ( ) $ ^` and the separator `|`. -/
def specEscapeSet : List Char := ['.', '+', '(', ')', '$', '^', '|']

/-- Modelled from the spec's words: "a glob-style pattern using `*` as 'match
any substring' (all of `. + ( ) $ ^` are treated as literal characters, `|` is
escaped as a literal separator)", built as the design notes describe — "a
single explicit grammar (escape set `{., +, (, ), $, ^, |}` then wildcard
`*` → `.*`) implemented as one pass over the literal". -/
def specMapChar (c : Char) : List Char :=
  if c ∈ specEscapeSet then ['\\', c] else if c = '*' then ['.', '*'] else [c]

/-- The spec-side translation: one pass over the value. -/
def specTranslate (s : List Char) : List Char := mapChunks specMapChar s

/-- Spec-side selection: the label matches the translated regular expression
over its full extent. -/
def specSelect (s label : String) : Bool :=
  tfull label.data (parseRe (specTranslate s.data))

/-- Characters of a value spec that Python's `re` would interpret beyond the
modelled fragment (backslash and bracket syntax) or that quantify the
preceding atom (`?`). -/
def badSpecChars : List Char := ['\\', '[', ']', '{', '}', '?']

/-- The value spec stays inside the modelled fragment of `re`. -/
def okSpec (s : List Char) : Bool := s.all (fun c => !(badSpecChars.contains c))

/-- The single token produced by one spec character after translation. -/
def tokOf (c : Char) : Tok := if c = '*' then Tok.star .any else Tok.once (.lit c)

/-! ### Embedding of the time-component matchers (`filters.py`) -/

/-- A filter element: an int, a float, or a string. -/
inductive Val where
  | i (n : Int)
  | f (q : ℚ)
  | s (v : String)
  deriving DecidableEq, Repr

/-- `isinstance(v, (int, np.integer))`. -/
def Val.isInt : Val → Bool
  | .i _ => true
  | _ => false

/-- Python `==` between an int datum and a filter element (an int equals a
float exactly when the float is integral with the same value). -/
def pyEqInt (v : Int) : Val → Bool
  | .i n => v == n
  | .f q => q.den == 1 && q.num == v
  | .s _ => false

/-- A scalar-or-list filter argument. -/
inductive VInput where
  | scalar (v : Val)
  | list (vs : List Val)
  deriving DecidableEq, Repr

/-- `is_in(data, items)` when `items` may be any Python object: membership in
a list is an equality scan; `v in scalar` raises `TypeError` at the first
datum (so an empty `data` yields an empty mask without error). -/
def isInScalarOrList (data : List Int) (items : VInput) : Except PyErr (List Bool) :=
  match items with
  | .list vs => .ok (data.map (fun v => vs.any (pyEqInt v)))
  | .scalar (.s _) =>
      if data.isEmpty then .ok []
      else .error (.typeError "'in <string>' requires string as left operand, not int")
  | .scalar (.i _) =>
      if data.isEmpty then .ok []
      else .error (.typeError "argument of type 'int' is not iterable")
  | .scalar (.f _) =>
      if data.isEmpty then .ok []
      else .error (.typeError "argument of type 'float' is not iterable")

/-- `filters.py` `years_match`: wrap a scalar int, test that every element is
an int (iterating a string tests its characters), raise `TypeError`
otherwise, then delegate to `is_in`. -/
def years_match (data : List Int) (years : VInput) : Except PyErr (List Bool) :=
  let years1 := match years with
    | .scalar (.i n) => VInput.list [.i n]
    | other => other
  let usable_int := match years1 with
    | .list vs => vs.all Val.isInt
    | .scalar (.s v) => v.data.all (fun _ => false)
    | .scalar _ => false
  if !usable_int then
    .error (.typeError "`year` can only be filtered with ints or lists of ints")
  else
    isInScalarOrList data years1

/-- `filters.py` `hour_match`: wrap a scalar int and delegate straight to
`is_in` — there is no type validation. -/
def hour_match (data : List Int) (hours : VInput) : Except PyErr (List Bool) :=
  let hours_list := match hours with
    | .scalar (.i n) => VInput.list [.i n]
    | other => other
  isInScalarOrList data hours_list

/-- Month-name table for `time.strptime(_, "%b")` (canonical capitalisation;
`strptime`'s case-insensitivity is not modelled). -/
def monthAbbrToInt : String → Option Int
  | "Jan" => some 1
  | "Feb" => some 2
  | "Mar" => some 3
  | "Apr" => some 4
  | "May" => some 5
  | "Jun" => some 6
  | "Jul" => some 7
  | "Aug" => some 8
  | "Sep" => some 9
  | "Oct" => some 10
  | "Nov" => some 11
  | "Dec" => some 12
  | _ => none

/-- Month-name table for `time.strptime(_, "%B")`. -/
def monthFullToInt : String → Option Int
  | "January" => some 1
  | "February" => some 2
  | "March" => some 3
  | "April" => some 4
  | "May" => some 5
  | "June" => some 6
  | "July" => some 7
  | "August" => some 8
  | "September" => some 9
  | "October" => some 10
  | "November" => some 11
  | "December" => some 12
  | _ => none

/-- One conversion attempt inside `conv_strs`: apply `code` to every element
left to right.  A parse failure is the `ValueError` the source catches
(`.ok none`); an int element raises an uncaught `TypeError` from `strptime`. -/
def tryConv (code : String → Option Int) : List Val → Except PyErr (Option (List Int))
  | [] => .ok (some [])
  | .s v :: rest =>
      match code v with
      | none => .ok none
      | some n => (tryConv code rest).map (fun r => r.map (fun l => n :: l))
  | .i _ :: _ => .error (.typeError "strptime() argument must be str, not int")
  | .f _ :: _ => .error (.typeError "strptime() argument must be str, not float")

/-- Try each conversion code in turn (`conv_strs`'s loop). -/
def convStrsGo : List (String → Option Int) → List Val → Except PyErr (Option (List Int))
  | [], _ => .ok none
  | c :: cs, xs => do
      match ← tryConv c xs with
      | some r => .ok (some r)
      | none => convStrsGo cs xs

/-- `conv_strs` from `time_match`: first conversion code under which every
element parses wins; if none does, raise `ValueError`. -/
def conv_strs (codes : List (String → Option Int)) (xs : List Val) (name : String) :
    Except PyErr (List Int) := do
  match ← convStrsGo codes xs with
  | some r => .ok r
  | none => .error (.valueError ("Could not convert " ++ name ++ " to integer"))

/-- The inclusive integer range `[a, b]` (`range(a, b + 1)`). -/
def intRange (a b : Int) : List Int :=
  (List.range (b + 1 - a).toNat).map (fun (k : Nat) => a + (k : Int))

/-- The range-expansion loop of `time_match`: scan the elements with their
indices, expanding `"X-Y"` strings into inclusive integer ranges, recording
the indices to delete; a decreasing range raises `ValueError`, and a non-str
element raises `TypeError` at the `"-" in timeset` test. -/
def expandLoop (codes : List (String → Option Int)) (name : String) :
    List Val → Nat → Except PyErr (List Int × List Nat)
  | [], _ => .ok ([], [])
  | t :: rest, i =>
    match t with
    | .s v =>
      if v.data.contains '-' then do
        let ints ← conv_strs codes ((splitOnCharL '-' v.data).map (fun l => Val.s (String.mk l))) name
        let a := ints.getD 0 0
        let b := ints.getD 1 0
        if b < a then
          .error (.valueError ("string ranges must lead to increasing integer ranges, "
            ++ v ++ " becomes [" ++ toString a ++ ", " ++ toString b ++ "]"))
        else do
          let (ap, dl) ← expandLoop codes name rest (i + 1)
          .ok (intRange a b ++ ap, i :: dl)
      else do
        let (ap, dl) ← expandLoop codes name rest (i + 1)
        .ok (ap, dl)
    | .i _ => .error (.typeError "argument of type 'int' is not iterable")
    | .f _ => .error (.typeError "argument of type 'float' is not iterable")

/-- Python `del l[i]`: `none` models the `IndexError`. -/
def pyDelAt : List α → Nat → Option (List α)
  | [], _ => none
  | _ :: xs, 0 => some xs
  | x :: xs, Nat.succ n => (pyDelAt xs n).map (fun l => x :: l)

/-- `for i in to_delete: del times_list[i]`, performed in order on the
shrinking list. -/
def applyDeletes : List Val → List Nat → Except PyErr (List Val)
  | l, [] => .ok l
  | l, i :: rest =>
    match pyDelAt l i with
    | none => .error .indexError
    | some l2 => applyDeletes l2 rest

/-- `filters.py` `time_match`. -/
def time_match (data : List Int) (times : VInput)
    (convCodes : List (String → Option Int)) (name : String) :
    Except PyErr (List Bool) := do
  let times_list : List Val ←
    match times with
    | .scalar (.f _) => .error (.typeError "'float' object is not subscriptable")
    | .scalar v => .ok [v]
    | .list vs => .ok vs
  match times_list.head? with
  | none => .error .indexError
  | some (.s _) => do
      let (to_append, to_delete) ← expandLoop convCodes name times_list 0
      let remaining ← applyDeletes times_list to_delete
      let ints ← conv_strs convCodes remaining name
      .ok (data.map (fun v => (ints ++ to_append).contains v))
  | some _ => .ok (data.map (fun v => times_list.any (pyEqInt v)))

/-- `filters.py` `month_match`. -/
def month_match (data : List Int) (months : VInput) : Except PyErr (List Bool) :=
  time_match data months [monthAbbrToInt, monthFullToInt] "month"

/-- Is the result a raised `ValueError`? -/
def isValueError : Except PyErr α → Bool
  | .error (.valueError _) => true
  | _ => false

/-! ### Embedding of `offsets.py` (`generate_range`)

`generate_range` delegates `rollback`, `rollforward` and `cftime_range` to
`xarray.coding.cftime_offsets` and `cftime`, which are external collaborators
(not under `src/`).  Modelled from the spec: an offset "encodes a step rule"
("every N years starting on Jan 1"); timestamps live on an integer timeline,
an offset is an arithmetic progression given by a step `n` and a phase,
`rollback` moves to the nearest boundary on-or-before the date, `rollforward`
to the nearest boundary on-or-after, and `cftime_range a b freq` emits the
timestamps from `a` stepping by `n` while they do not exceed `b`. -/

/-- A step rule: boundaries are the timeline points congruent to `phase`
modulo the step `n`. -/
structure Offset where
  n : Int
  phase : Int
  deriving DecidableEq, Repr

/-- `d` lies exactly on a boundary of the offset. -/
def Offset.onOffset (o : Offset) (d : Int) : Prop := (d - o.phase) % o.n = 0

instance (o : Offset) (d : Int) : Decidable (o.onOffset d) :=
  inferInstanceAs (Decidable ((d - o.phase) % o.n = 0))

/-- Nearest boundary on-or-before `d`. -/
def Offset.rollback (o : Offset) (d : Int) : Int := d - (d - o.phase) % o.n

/-- Nearest boundary on-or-after `d`. -/
def Offset.rollforward (o : Offset) (d : Int) : Int := d + (o.phase - d) % o.n

/-- `cftime_range(a, b, freq)`: `a, a + n, a + 2n, ...` while `≤ b`
(empty when `b < a`). -/
def cftime_range (start stop step : Int) : List Int :=
  if stop < start then []
  else (List.range (((stop - start) / step).toNat + 1)).map
    (fun (k : Nat) => start + step * (k : Int))

/-- `offsets.py` `generate_range`: roll the start backward and the stop
forward onto the offset boundaries, then emit the stepped range between
them. -/
def generate_range (start stop : Int) (o : Offset) : List Int :=
  cftime_range (o.rollback start) (o.rollforward stop) o.n

/-! ### Embedding of `groupby.py` (`GroupBy.__init__`) -/

/-- One metadata cell value: a number or a string. -/
inductive MVal where
  | q (v : ℚ)
  | s (v : String)
  deriving DecidableEq, Repr

/-- One metadata column: its dtype flag (`np.issubdtype(dtype, np.number)`)
and per-row cell values (`none` is NaN/missing). -/
structure MCol where
  dtypeNum : Bool
  vals : List (Option MVal)
  deriving DecidableEq, Repr

/-- Python `==` between a metadata cell and the float sentinel: NaN and
strings compare unequal to every float. -/
def cellEqNum (x : ℚ) : Option MVal → Bool
  | some (.q v) => v == x
  | _ => false

/-- `(meta == na_fill_value).any(axis=None)`. -/
def metaHasValue (meta : List MCol) (x : ℚ) : Bool :=
  meta.any (fun c => c.vals.any (cellEqNum x))

/-- `m.fillna(na_fill_value)` on one column: every missing cell becomes the
float sentinel (pandas fills every column, whatever its dtype). -/
def fillnaCol (x : ℚ) (c : MCol) : MCol :=
  ⟨c.dtypeNum, c.vals.map (fun o => some (o.getD (.q x)))⟩

/-- `GroupBy.__init__` up to the `groupby` delegation (`groupby.py` lines
24-38): if any column is numeric, a sentinel collision raises `ValueError`
before anything else, otherwise NaNs are replaced by the sentinel; returns
the preprocessed metadata handed to `pandas.groupby`. -/
def GroupBy.init (meta : List MCol) (na_fill_value : ℚ) : Except PyErr (List MCol) :=
  if meta.any (fun c => c.dtypeNum) then
    if metaHasValue meta na_fill_value then
      .error (.valueError
        "na_fill_value conflicts with data value. Choose an na_fill_value not in meta")
    else .ok (meta.map (fillnaCol na_fill_value))
  else .ok meta

/-- The default `na_fill_value`. -/
def GroupBy.naDefault : ℚ := mkRat (-10000) 1

/-! ### Helper lemmas -/

/-- `false || x = x`, pointwise on masks. -/
theorem orMasks_false_left (m : List Bool) :
    orMasks (List.replicate m.length false) m = m := by
  induction m with
  | nil => rfl
  | cons b m ih =>
      simp only [orMasks] at ih
      simp [orMasks, List.replicate_succ, List.zipWith, ih]

theorem orMasks_replicate_true (n : Nat) :
    orMasks (List.replicate n false) (List.replicate n true) = List.replicate n true := by
  have h := orMasks_false_left (List.replicate n true)
  simpa using h

theorem orMasks_false_map (l : List Int) (f : Int → Bool) :
    orMasks (List.replicate l.length false) (l.map f) = l.map f := by
  have h := orMasks_false_left (l.map f)
  rwa [List.length_map] at h

/-! ### Claim theorems: month, year and hour matchers -/

/-- C5: for every input sequence `data`, `month_match data "Mar-May"` returns the same
boolean mask as `month_match data [3, 4, 5]`, and `month_match data "Nov-Feb"` raises a
`ValueError` because the range's start resolves to a larger integer than its end. -/
theorem month_match_range_expansion (data : List Int) :
    month_match data (.scalar (.s "Mar-May")) = month_match data (.list [.i 3, .i 4, .i 5])
      ∧ month_match data (.scalar (.s "Nov-Feb"))
        = .error (.valueError
            "string ranges must lead to increasing integer ranges, Nov-Feb becomes [11, 2]") :=
  ⟨rfl, rfl⟩

/-- C4: splitting the wraparound month range into `["Nov-Dec", "Jan-Feb"]` does not
produce the union mask: the deletion loop `for i in to_delete: del times_list[i]` uses
stale indices on the shrinking list and raises `IndexError`, whereas the equivalent
integer list `[11, 12, 1, 2]` yields the membership mask. -/
theorem month_match_split_wraparound_crashes :
    month_match [11] (.list [.s "Nov-Dec", .s "Jan-Feb"]) = .error .indexError
      ∧ month_match [11] (.list [.i 11, .i 12, .i 1, .i 2]) = .ok [true] :=
  ⟨rfl, rfl⟩

/-- C6 counterexample: `hour_match` performs no type validation — a list containing the
float `3.5` is accepted and yields an ordinary membership mask instead of raising
`TypeError`; and `years_match` with the empty string (a string filter) returns a mask
rather than raising when the data is empty. -/
theorem hour_match_no_validation :
    hour_match [1, 2] (.list [.f (mkRat 7 2)]) = .ok [false, false]
      ∧ years_match [] (.scalar (.s "")) = .ok [] :=
  ⟨rfl, rfl⟩

/-- C6 amended: `years_match` raises `TypeError` before any membership test whenever the
filter is a float, a nonempty string, or a list containing a non-int element;
`hour_match` performs no such validation and computes a plain membership mask. -/
theorem years_match_type_validation :
    (∀ (data : List Int) (q : ℚ), years_match data (.scalar (.f q))
        = .error (.typeError "`year` can only be filtered with ints or lists of ints"))
      ∧ (∀ (data : List Int) (v : String), v ≠ "" → years_match data (.scalar (.s v))
          = .error (.typeError "`year` can only be filtered with ints or lists of ints"))
      ∧ (∀ (data : List Int) (vs : List Val), vs.all Val.isInt = false →
          years_match data (.list vs)
            = .error (.typeError "`year` can only be filtered with ints or lists of ints"))
      ∧ hour_match [1, 2] (.list [.f (mkRat 7 2), .s "x"]) = .ok [false, false] := by
  refine ⟨fun data q => rfl, fun data v hv => ?_, fun data vs h => ?_, rfl⟩
  · obtain ⟨l⟩ := v
    cases l with
    | nil => exact absurd rfl hv
    | cons c cs => rfl
  · simp [years_match, h]

theorem years_match_type_validation_witness :
    years_match [2000] (.scalar (.s "2005"))
        = .error (.typeError "`year` can only be filtered with ints or lists of ints")
      ∧ years_match [2000, 2001] (.list [.i 2000, .f (mkRat 7 2)])
        = .error (.typeError "`year` can only be filtered with ints or lists of ints") :=
  ⟨years_match_type_validation.2.1 [2000] "2005" (by decide),
   years_match_type_validation.2.2.1 [2000, 2001] [.i 2000, .f (mkRat 7 2)] (by decide)⟩

/-! ### Claim theorems: `pattern_match` masks -/

/-- C7: a bare `"*"` with `level=None` and `regexp=False` matches every row
unconditionally, including rows whose category is missing. -/
theorem pattern_match_star_matches_all (col : CatIndex) (sep : String) :
    pattern_match col [.s "*"] none false sep = .ok (List.replicate col.codes.length true) := by
  have h : pattern_match col [.s "*"] none false sep
      = .ok (orMasks (List.replicate col.codes.length false)
          (List.replicate col.codes.length true)) := rfl
  rw [h, orMasks_replicate_true]

/-- C8: the empty string and NaN each match exactly the rows whose category is missing
(the distinguished category code `-1`) and no row carrying a real category. -/
theorem pattern_match_empty_and_nan_match_missing (col : CatIndex) (sep : String) :
    pattern_match col [.s ""] none false sep = .ok (col.codes.map (fun k => k == -1))
      ∧ pattern_match col [.nan] none false sep = .ok (col.codes.map (fun k => k == -1)) := by
  constructor
  · have h : pattern_match col [.s ""] none false sep
        = .ok (orMasks (List.replicate col.codes.length false)
            (col.codes.map (fun k => k == -1))) := rfl
    rw [h, orMasks_false_map]
  · have h : pattern_match col [.nan] none false sep
        = .ok (orMasks (List.replicate col.codes.length false)
            (col.codes.map (fun k => k == -1))) := rfl
    rw [h, orMasks_false_map]

/-- C2 counterexample: `pattern_match(["a|b|c"], "a|b|c", level=1)` returns a `False`
mask — `find_depth` deletes every occurrence of the star-stripped spec (here the whole
label), leaving depth 0, so the depth-1 filter rejects the label. -/
theorem pattern_match_level_one_counterexample :
    pattern_match ⟨["a|b|c"], [0]⟩ [.s "a|b|c"] (some (.i 1)) false "|" = .ok [false] := rfl

/-- C2 amended: for the single-category column `["a|b|c"]` and the value `"a|b|c"`, the
label's depth after deleting the star-stripped spec is 0, so `level=0` returns a `True`
mask and `level=1` returns a `False` mask. -/
theorem pattern_match_level_zero_matches :
    pattern_match ⟨["a|b|c"], [0]⟩ [.s "a|b|c"] (some (.i 0)) false "|" = .ok [true]
      ∧ pattern_match ⟨["a|b|c"], [0]⟩ [.s "a|b|c"] (some (.i 1)) false "|" = .ok [false] :=
  ⟨rfl, rfl⟩

/-! ### Claim theorems: `GroupBy.__init__` -/

/-- C9: when at least one metadata column is numeric, `GroupBy` construction raises
`ValueError` exactly when some metadata value equals the `na_fill_value` sentinel, before
any grouping; otherwise it succeeds and missing values are replaced by the sentinel. -/
theorem groupby_init_sentinel (meta : List MCol) (x : ℚ)
    (hnum : meta.any (fun c => c.dtypeNum) = true) :
    (metaHasValue meta x = true →
        GroupBy.init meta x = .error (.valueError
          "na_fill_value conflicts with data value. Choose an na_fill_value not in meta"))
      ∧ (metaHasValue meta x = false →
          GroupBy.init meta x = .ok (meta.map (fillnaCol x))
            ∧ ∀ c ∈ meta, ∀ i, c.vals.get? i = some none →
                (fillnaCol x c).vals.get? i = some (some (.q x))) := by
  constructor
  · intro h
    simp [GroupBy.init, hnum, h]
  · intro h
    refine ⟨by simp [GroupBy.init, hnum, h], ?_⟩
    intro c _ i hi
    simp only [fillnaCol, List.get?_eq_getElem?, List.getElem?_map] at hi ⊢
    simp [hi]

theorem groupby_init_sentinel_witness :
    GroupBy.init [⟨true, [none, some (.q (mkRat 3 1))]⟩, ⟨false, [some (.s "a"), none]⟩]
        GroupBy.naDefault
      = .ok ([⟨true, [none, some (.q (mkRat 3 1))]⟩,
              ⟨false, [some (.s "a"), none]⟩].map (fillnaCol GroupBy.naDefault)) :=
  ((groupby_init_sentinel
      [⟨true, [none, some (.q (mkRat 3 1))]⟩, ⟨false, [some (.s "a"), none]⟩]
      GroupBy.naDefault (by decide)).2 (by decide)).1

/-! ### Claim theorems: `generate_range` -/

/-- C1: for start ≤ end and a positive step, `generate_range` returns a sequence that is
increasing, whose first element is an offset boundary ≤ start, whose last element is an
offset boundary ≥ end, with adjacent elements exactly one step apart, and which starts
(ends) exactly at start (end) when that input already lies on a boundary. -/
theorem generate_range_rollback_rollforward (start stop : Int) (o : Offset)
    (hn : 0 < o.n) (hse : start ≤ stop) :
    ∃ first last,
      (generate_range start stop o).head? = some first
        ∧ (generate_range start stop o).getLast? = some last
        ∧ first ≤ start ∧ o.onOffset first
        ∧ stop ≤ last ∧ o.onOffset last
        ∧ List.Chain' (fun a b => b = a + o.n) (generate_range start stop o)
        ∧ List.Chain' (fun a b => a < b) (generate_range start stop o)
        ∧ (o.onOffset start → first = start)
        ∧ (o.onOffset stop → last = stop) := by
  have hnne : o.n ≠ 0 := by omega
  have h1 : 0 ≤ (start - o.phase) % o.n := Int.emod_nonneg _ hnne
  have h2 : 0 ≤ (o.phase - stop) % o.n := Int.emod_nonneg _ hnne
  have hrb : o.rollback start ≤ start := by unfold Offset.rollback; omega
  have hrf : stop ≤ o.rollforward stop := by unfold Offset.rollforward; omega
  have e1 : o.rollback start - o.phase = o.n * ((start - o.phase) / o.n) := by
    unfold Offset.rollback
    rw [Int.emod_def]; ring
  have e2 : o.rollforward stop - o.phase = o.n * (-((o.phase - stop) / o.n)) := by
    unfold Offset.rollforward
    rw [Int.emod_def]; ring
  have hrbOn : o.onOffset (o.rollback start) := by
    unfold Offset.onOffset
    rw [e1, Int.mul_emod_right]
  have hrfOn : o.onOffset (o.rollforward stop) := by
    unfold Offset.onOffset
    rw [e2, Int.mul_emod_right]
  have hdvd : o.n ∣ (o.rollforward stop - o.rollback start) :=
    ⟨-((o.phase - stop) / o.n) - (start - o.phase) / o.n, by linarith [e1, e2]⟩
  have hrbrf : o.rollback start ≤ o.rollforward stop := le_trans hrb (le_trans hse hrf)
  have hKcast : (((o.rollforward stop - o.rollback start) / o.n).toNat : Int)
      = (o.rollforward stop - o.rollback start) / o.n :=
    Int.toNat_of_nonneg (Int.ediv_nonneg (by omega) hn.le)
  have hnK : o.n * (((o.rollforward stop - o.rollback start) / o.n).toNat : Int)
      = o.rollforward stop - o.rollback start := by
    rw [hKcast, Int.mul_ediv_cancel' hdvd]
  have hlist : generate_range start stop o
      = (List.range (((o.rollforward stop - o.rollback start) / o.n).toNat + 1)).map
          (fun (k : Nat) => o.rollback start + o.n * (k : Int)) := by
    unfold generate_range cftime_range
    rw [if_neg (by omega)]
  have hhead : (generate_range start stop o).head? = some (o.rollback start) := by
    rw [hlist, List.range_succ_eq_map]
    simp
  have hlast : (generate_range start stop o).getLast? = some (o.rollforward stop) := by
    rw [hlist, List.range_succ]
    simp only [List.map_append, List.map_cons, List.map_nil, List.getLast?_concat]
    exact congrArg some (by linarith [hnK])
  have hchain : List.Chain' (fun a b => b = a + o.n) (generate_range start stop o) := by
    rw [hlist, List.chain'_map, List.chain'_range_succ]
    intro m _
    push_cast
    ring
  have hchainlt : List.Chain' (fun a b => a < b) (generate_range start stop o) := by
    rw [hlist, List.chain'_map, List.chain'_range_succ]
    intro m _
    have hmm : (m : Int) < (m : Int) + 1 := by omega
    have := mul_lt_mul_of_pos_left hmm hn
    push_cast
    linarith
  refine ⟨o.rollback start, o.rollforward stop, hhead, hlast, hrb, hrbOn, hrf, hrfOn,
    hchain, hchainlt, ?_, ?_⟩
  · intro hstart
    unfold Offset.onOffset at hstart
    unfold Offset.rollback
    omega
  · intro hstop
    unfold Offset.onOffset at hstop
    have hd1 : o.n ∣ (stop - o.phase) := Int.dvd_of_emod_eq_zero hstop
    have hd2 : o.n ∣ (o.phase - stop) := by
      have : o.phase - stop = -(stop - o.phase) := by ring
      rw [this]
      exact dvd_neg.mpr hd1
    have hz : (o.phase - stop) % o.n = 0 := Int.emod_eq_zero_of_dvd hd2
    unfold Offset.rollforward
    omega

theorem generate_range_rollback_rollforward_witness :
    ∃ first last,
      (generate_range 3 10 ⟨3, 1⟩).head? = some first
        ∧ (generate_range 3 10 ⟨3, 1⟩).getLast? = some last
        ∧ first ≤ 3 ∧ Offset.onOffset ⟨3, 1⟩ first
        ∧ 10 ≤ last ∧ Offset.onOffset ⟨3, 1⟩ last
        ∧ List.Chain' (fun a b => b = a + (3 : Int)) (generate_range 3 10 ⟨3, 1⟩)
        ∧ List.Chain' (fun a b => a < b) (generate_range 3 10 ⟨3, 1⟩)
        ∧ (Offset.onOffset ⟨3, 1⟩ 3 → first = 3)
        ∧ (Offset.onOffset ⟨3, 1⟩ 10 → last = 10) :=
  generate_range_rollback_rollforward 3 10 ⟨3, 1⟩ (by decide) (by decide)

/-! ### The pseudo-regexp replacement chain is the one-pass translation -/

theorem pyReplaceGo_single (c : Char) (r : List Char) :
    ∀ (n : Nat) (s : List Char), s.length ≤ n →
      pyReplaceGo [c] r n s = mapChunks (fun a => if a = c then r else [a]) s := by
  intro n
  induction n with
  | zero =>
      intro s hs
      have : s = [] := List.length_eq_zero.mp (Nat.le_zero.mp hs)
      subst this
      rfl
  | succ n ih =>
      intro s hs
      cases s with
      | nil => rfl
      | cons a as =>
          have hlen : as.length ≤ n := by simpa using hs
          by_cases h : c = a
          · subst h
            have hpre : [c].isPrefixOf (c :: as) = true := by
              simp [List.isPrefixOf]
            simp [pyReplaceGo, hpre, mapChunks, ih as hlen]
          · have hac : ¬ a = c := fun hh => h hh.symm
            have hpre : [c].isPrefixOf (a :: as) = false := by
              simp [List.isPrefixOf, h]
            simp [pyReplaceGo, hpre, mapChunks, hac, ih as hlen]

theorem pyReplaceL_single (c : Char) (r : List Char) (s : List Char) :
    pyReplaceL [c] r s = mapChunks (fun a => if a = c then r else [a]) s := by
  unfold pyReplaceL
  simp only [List.isEmpty]
  exact pyReplaceGo_single c r s.length s le_rfl

theorem mapChunks_append (f : Char → List Char) (x y : List Char) :
    mapChunks f (x ++ y) = mapChunks f x ++ mapChunks f y := by
  induction x with
  | nil => rfl
  | cons a x ih => simp [mapChunks, ih]

theorem pseudoRegexChain_nil : pseudoRegexChain [] = [] := rfl

theorem pseudoRegexChain_append (x y : List Char) :
    pseudoRegexChain (x ++ y) = pseudoRegexChain x ++ pseudoRegexChain y := by
  simp only [pseudoRegexChain, pyReplaceL_single, mapChunks_append]

theorem pseudoRegexChain_char (a : Char) : pseudoRegexChain [a] = specMapChar a := by
  by_cases h1 : a = '|'
  · subst h1; rfl
  by_cases h2 : a = '.'
  · subst h2; rfl
  by_cases h3 : a = '*'
  · subst h3; rfl
  by_cases h4 : a = '+'
  · subst h4; rfl
  by_cases h5 : a = '('
  · subst h5; rfl
  by_cases h6 : a = ')'
  · subst h6; rfl
  by_cases h7 : a = '$'
  · subst h7; rfl
  by_cases h8 : a = '^'
  · subst h8; rfl
  simp only [pseudoRegexChain, pyReplaceL_single]
  simp [mapChunks, h1, h2, h3, h4, h5, h6, h7, h8, specMapChar, specEscapeSet]

theorem pseudoRegexChain_cons (a : Char) (s : List Char) :
    pseudoRegexChain (a :: s) = specMapChar a ++ pseudoRegexChain s := by
  have h : a :: s = [a] ++ s := rfl
  rw [h, pseudoRegexChain_append, pseudoRegexChain_char]

/-- The source's sequential replacement chain equals the one-pass translation
described by the spec. -/
theorem pseudoRegexChain_eq_specTranslate (s : List Char) :
    pseudoRegexChain s = specTranslate s := by
  induction s with
  | nil => rfl
  | cons a s ih =>
      rw [pseudoRegexChain_cons, ih]
      rfl

/-! ### Parsing the translated pattern -/

theorem parseRe_escape_nil (c : Char) : parseRe ['\\', c] = [.once (.lit c)] := rfl

theorem parseRe_escape (c d : Char) (rest : List Char) (hd1 : d ≠ '*') (hd2 : d ≠ '?') :
    parseRe ('\\' :: c :: d :: rest) = .once (.lit c) :: parseRe (d :: rest) := by
  rw [parseRe.eq_def]
  simp [hd1, hd2]

theorem parseRe_dotstar (rest : List Char) :
    parseRe ('.' :: '*' :: rest) = .star .any :: parseRe rest := by
  rw [parseRe.eq_def]
  simp [mkAtom]

theorem parseRe_plain_nil (a : Char) (ha1 : a ≠ '\\') (ha2 : a ≠ '$') :
    parseRe [a] = [.once (mkAtom a)] := by
  rw [parseRe.eq_def]
  simp [ha1, ha2]

theorem parseRe_plain (a d : Char) (rest : List Char)
    (ha1 : a ≠ '\\') (ha2 : a ≠ '$') (hd1 : d ≠ '*') (hd2 : d ≠ '?') :
    parseRe (a :: d :: rest) = .once (mkAtom a) :: parseRe (d :: rest) := by
  rw [parseRe.eq_def]
  simp [ha1, ha2, hd1, hd2]

theorem specMapChar_ne_nil (a : Char) : specMapChar a ≠ [] := by
  unfold specMapChar
  split_ifs <;> simp

theorem mapChunks_specMapChar_eq_nil (s : List Char) :
    mapChunks specMapChar s = [] ↔ s = [] := by
  cases s with
  | nil => simp [mapChunks]
  | cons a s => simp [mapChunks, specMapChar_ne_nil]

/-- The first character of a translated tail (followed by `t`) is never a
quantifier, so it cannot capture the preceding atom. -/
theorem chunksHead (s t : List Char) (hs : ∀ c ∈ s, c ≠ '\\' ∧ c ≠ '?')
    (ht : ∀ c, t.head? = some c → c ≠ '*' ∧ c ≠ '?') :
    ∀ c, (mapChunks specMapChar s ++ t).head? = some c → c ≠ '*' ∧ c ≠ '?' := by
  cases s with
  | nil => simpa [mapChunks] using ht
  | cons a s =>
      intro c hc
      by_cases h1 : a ∈ specEscapeSet
      · have hch : specMapChar a = ['\\', a] := by simp [specMapChar, h1]
        simp [mapChunks, hch] at hc
        subst hc
        exact ⟨by decide, by decide⟩
      · by_cases h2 : a = '*'
        · have hch : specMapChar a = ['.', '*'] := by subst h2; rfl
          simp [mapChunks, hch] at hc
          subst hc
          exact ⟨by decide, by decide⟩
        · have hch : specMapChar a = [a] := by simp [specMapChar, h1, h2]
          simp [mapChunks, hch] at hc
          subst hc
          exact ⟨h2, (hs a (by simp)).2⟩

/-- Parsing the translated spec (followed by any quantifier-free tail) yields
one token per spec character. -/
theorem parseRe_chunks : ∀ (s t : List Char),
    (∀ c ∈ s, c ≠ '\\' ∧ c ≠ '?') →
    (∀ c, t.head? = some c → c ≠ '*' ∧ c ≠ '?') →
    parseRe (mapChunks specMapChar s ++ t) = s.map tokOf ++ parseRe t := by
  intro s
  induction s with
  | nil => intro t _ _; simp [mapChunks]
  | cons a s ih =>
      intro t hs ht
      have hs' : ∀ c ∈ s, c ≠ '\\' ∧ c ≠ '?' := fun c hc => hs c (List.mem_cons_of_mem _ hc)
      have ha := hs a (List.mem_cons_self _ _)
      have hrest := chunksHead s t hs' ht
      by_cases h1 : a ∈ specEscapeSet
      · have hstar : a ≠ '*' := by
          intro h; subst h; simp [specEscapeSet] at h1
        have htok : tokOf a = .once (.lit a) := by simp [tokOf, hstar]
        have hch : specMapChar a = ['\\', a] := by simp [specMapChar, h1]
        have hsplit : mapChunks specMapChar (a :: s) ++ t
            = '\\' :: a :: (mapChunks specMapChar s ++ t) := by
          simp [mapChunks, hch]
        rw [hsplit]
        cases hR : mapChunks specMapChar s ++ t with
        | nil =>
            have hs0 : s = [] := by
              have := List.append_eq_nil.mp hR
              exact (mapChunks_specMapChar_eq_nil s).mp this.1
            have ht0 : t = [] := (List.append_eq_nil.mp hR).2
            subst hs0; subst ht0
            rw [parseRe_escape_nil]
            simp [htok, parseRe]
        | cons d R2 =>
            have hd := hrest d (by rw [hR]; rfl)
            rw [parseRe_escape a d R2 hd.1 hd.2, ← hR, ih t hs' ht]
            simp [htok]
      · by_cases h2 : a = '*'
        · subst h2
          have hch : specMapChar '*' = ['.', '*'] := rfl
          have hsplit : mapChunks specMapChar ('*' :: s) ++ t
              = '.' :: '*' :: (mapChunks specMapChar s ++ t) := by
            simp [mapChunks, hch]
          rw [hsplit, parseRe_dotstar, ih t hs' ht]
          rfl
        · have hch : specMapChar a = [a] := by simp [specMapChar, h1, h2]
          have htok : tokOf a = .once (.lit a) := by simp [tokOf, h2]
          have hdot : a ≠ '.' := by
            intro h; subst h; simp [specEscapeSet] at h1
          have hdol : a ≠ '$' := by
            intro h; subst h; simp [specEscapeSet] at h1
          have hmk : mkAtom a = .lit a := by simp [mkAtom, hdot]
          have hsplit : mapChunks specMapChar (a :: s) ++ t
              = a :: (mapChunks specMapChar s ++ t) := by
            simp [mapChunks, hch]
          rw [hsplit]
          cases hR : mapChunks specMapChar s ++ t with
          | nil =>
              have hs0 : s = [] := by
                have := List.append_eq_nil.mp hR
                exact (mapChunks_specMapChar_eq_nil s).mp this.1
              have ht0 : t = [] := (List.append_eq_nil.mp hR).2
              subst hs0; subst ht0
              rw [parseRe_plain_nil a ha.1 hdol, hmk]
              simp [htok, parseRe]
          | cons d R2 =>
              have hd := hrest d (by rw [hR]; rfl)
              rw [parseRe_plain a d R2 ha.1 hdol hd.1 hd.2, ← hR, ih t hs' ht, hmk]
              simp [htok]

/-! ### The appended end anchor turns prefix matching into full matching -/

theorem tmatchNil_anchor (ts : List Tok) :
    tmatchNil (ts ++ [.endAnchor]) = tmatchNil ts := by
  induction ts with
  | nil => rfl
  | cons t ts ih => cases t <;> simp [tmatchNil, ih]

theorem tmatch_anchor : ∀ (l : List Char) (ts : List Tok),
    tmatch l (ts ++ [.endAnchor]) = tfull l ts := by
  intro l
  induction l with
  | nil => intro ts; exact tmatchNil_anchor ts
  | cons c l ihl =>
      intro ts
      induction ts with
      | nil => rfl
      | cons t ts iht =>
          simp only [tmatch, tfull] at iht
          cases t with
          | once a => simp [tmatch, tfull, tmatchCons, tfullCons, ihl]
          | endAnchor => simp [tmatch, tfull, tmatchCons, tfullCons]
          | opt a => simp [tmatch, tfull, tmatchCons, tfullCons, ihl, iht]
          | star a =>
              have h2 := ihl (Tok.star a :: ts)
              rw [List.cons_append] at h2
              simp [tmatch, tfull, tmatchCons, tfullCons, iht, h2, ihl]

/-- A starless translated pattern is a sequence of literal tokens, and a
full-extent literal match is string equality. -/
theorem tfull_lits : ∀ (s l : List Char),
    (tfull l (s.map (fun c => Tok.once (Atom.lit c))) = true) ↔ l = s := by
  intro s
  induction s with
  | nil =>
      intro l
      cases l <;> simp [tfull, tmatchNil, tfullCons]
  | cons c s ih =>
      intro l
      cases l with
      | nil => simp [tfull, tmatchNil]
      | cons d l =>
          simp [tfull, tfullCons, amatch, ih l]

theorem okSpec_chars (s : List Char) (hok : okSpec s = true) :
    ∀ c ∈ s, c ≠ '\\' ∧ c ≠ '?' := by
  intro c hc
  have h := List.all_eq_true.mp hok c hc
  simp [badSpecChars] at h
  exact ⟨h.1, h.2.2.2.2.2⟩

theorem headOk_dollar : ∀ c, (['$'] : List Char).head? = some c → c ≠ '*' ∧ c ≠ '?' := by
  intro c h
  simp at h
  subst h
  exact ⟨by decide, by decide⟩

theorem headOk_nil : ∀ c, ([] : List Char).head? = some c → c ≠ '*' ∧ c ≠ '?' := by
  intro c h
  simp at h

/-- C3: with `regexp=False`, the glob step of `pattern_match` selects a category label
exactly when the label matches, over its full extent, the regular expression obtained
from the value spec by treating `. + ( ) $ ^ |` as literal characters and replacing `*`
by "match any substring" (for specs inside the modelled `re` fragment); in particular
`pattern_match(["a|b|c", "a|b|d"], "a|b|*")` matches both labels. -/
theorem glob_step_is_full_regex_match :
    (∀ (s label : String), okSpec s.data = true → globStepSelect s label = specSelect s label)
      ∧ pattern_match ⟨["a|b|c", "a|b|d"], [0, 1]⟩ [.s "a|b|*"] none false "|"
        = .ok [true, true] := by
  refine ⟨?_, rfl⟩
  intro s label hok
  have hs := okSpec_chars s.data hok
  unfold globStepSelect specSelect pseudoRegexStr
  rw [pseudoRegexChain_eq_specTranslate]
  unfold specTranslate
  rw [parseRe_chunks s.data ['$'] hs headOk_dollar]
  rw [show parseRe ['$'] = [.endAnchor] from rfl]
  rw [tmatch_anchor]
  rw [show mapChunks specMapChar s.data = mapChunks specMapChar s.data ++ []
    from (List.append_nil _).symm]
  rw [parseRe_chunks s.data [] hs headOk_nil]
  simp [parseRe]

theorem glob_step_is_full_regex_match_witness :
    globStepSelect "a|b|*" "a|b|c" = specSelect "a|b|*" "a|b|c" :=
  glob_step_is_full_regex_match.1 "a|b|*" "a|b|c" (by decide)

/-- C10 counterexample: the spec `"ab?"` contains no `'*'`, yet the glob step selects
the label `"a"`, which is not string-equal to the spec — Python's `re` gives the
untranslated `'?'` its quantifier meaning, so "no `*`" does not imply literal
matching. -/
theorem glob_step_not_exact_counterexample :
    globStepSelect "ab?" "a" = true ∧ ("a" : String) ≠ "ab?" :=
  ⟨rfl, by decide⟩

/-- C10 amended: for a value spec containing no `'*'` and no regex metacharacters
outside the escape set (`\\ [ ] \x7b \x7d ?`), the anchored pattern (compiled via
`match` with an appended `"$"`) selects a label iff the label is string-equal to the
spec; in particular a label merely containing the spec as a prefix is not selected. -/
theorem glob_step_exact_iff_equal :
    ∀ (s label : String), okSpec s.data = true → '*' ∉ s.data →
      (globStepSelect s label = true ↔ label = s) := by
  intro s label hok hstar
  have hs := okSpec_chars s.data hok
  unfold globStepSelect pseudoRegexStr
  rw [pseudoRegexChain_eq_specTranslate]
  unfold specTranslate
  rw [parseRe_chunks s.data ['$'] hs headOk_dollar]
  rw [show parseRe ['$'] = [.endAnchor] from rfl]
  rw [tmatch_anchor]
  have hmap : s.data.map tokOf = s.data.map (fun c => Tok.once (Atom.lit c)) := by
    apply List.map_congr_left
    intro c hc
    have hcs : c ≠ '*' := fun h => hstar (h ▸ hc)
    simp [tokOf, hcs]
  rw [hmap, tfull_lits]
  exact ⟨fun h => String.ext h, fun h => by rw [h]⟩

theorem glob_step_exact_iff_equal_witness :
    globStepSelect "a|b" "a|b|c" = true ↔ ("a|b|c" : String) = "a|b" :=
  glob_step_exact_iff_equal "a|b" "a|b|c" (by decide) (by decide)

end Scmdata
